import Mathlib

/-!
Verification of the Specification Compiler & Traceability Auditor of
`syndicate-api-citadel` (scripts/api-gen.js and scripts/audit-traceability.ts).

The JavaScript sources are shallowly embedded:

* JavaScript values that flow through the untyped parts of the code
  (parsed YAML manifests, schema registries) are modelled by the inductive
  `JVal`; `undefined` is modelled by `Option JVal` being `none`.
* A JavaScript object is modelled as an insertion-ordered association list
  `List (String × _)`; key assignment (`obj[k] = v`) is `jsInsert`, which
  updates an existing key in place (JavaScript objects keep the original
  insertion position of an updated key) and appends a new key at the end.
  `Object.keys`/`Object.values`/`Object.entries` are therefore
  `·.map Prod.fst`, `·.map Prod.snd` and the list itself.
* Property access on `undefined` or `null` throws a `TypeError`; functions
  whose source can throw are embedded in `Except Unit`.
* JavaScript numbers are modelled as exact rationals (`ℚ`); every quantity
  appearing in the audited arithmetic is small and exactly representable.
-/

/-- A parsed JSON/YAML value, as manipulated by the untyped JavaScript code.
Objects are insertion-ordered association lists. -/
inductive JVal where
  | null : JVal
  | bool : Bool → JVal
  | str : String → JVal
  | num : Int → JVal
  | arr : List JVal → JVal
  | obj : List (String × JVal) → JVal

/-- First-match association-list lookup: the model of `obj[k]` reading a
JavaScript object (keys are unique in an actual object). `none` models
`undefined`. -/
def jsLookup {α : Type} : List (String × α) → String → Option α
  | [], _ => none
  | (k, v) :: rest, key => if k = key then some v else jsLookup rest key

/-- The model of `obj[k] = v`: updating an existing key keeps its original
position; a fresh key is appended at the end (JavaScript property order). -/
def jsInsert {α : Type} (key : String) (v : α) : List (String × α) → List (String × α)
  | [] => [(key, v)]
  | (k, w) :: rest => if k = key then (k, v) :: rest else (k, w) :: jsInsert key v rest

/-- The model of `Object.assign(target, source)`: every entry of `source`
assigned into `target`, in order. -/
def jsAssign {α : Type} (target source : List (String × α)) : List (String × α) :=
  source.foldl (fun acc e => jsInsert e.1 e.2 acc) target

/-- JavaScript truthiness of a value that may be `undefined` (`none`). -/
def jsTruthyV : Option JVal → Bool
  | none => false
  | some .null => false
  | some (.bool b) => b
  | some (.str s) => s != ""
  | some (.num n) => n != 0
  | some (.arr _) => true
  | some (.obj _) => true

/-- `Array.isArray` on a possibly-`undefined` value. -/
def jsIsArray : Option JVal → Bool
  | some (.arr _) => true
  | _ => false

/-- Property access `v.key` where `v` may be `undefined`: throws a
`TypeError` on `undefined` and `null`, yields `undefined` for a key that is
absent or for a primitive receiver. -/
def jsGet : Option JVal → String → Except Unit (Option JVal)
  | none, _ => .error ()
  | some .null, _ => .error ()
  | some (.obj fields), key => .ok (jsLookup fields key)
  | some _, _ => .ok none

/-- The `endpoints.forEach((ep, index) => ...)` loop of
`validateBunYamlStructure` (api-gen.js lines 145-151): each endpoint must
have truthy `path`, `method` and `summary`.  Property access on a `null`
array element throws. -/
def validateEndpoints : List JVal → Nat → List String → Except Unit (List String)
  | [], _, errors => .ok errors
  | ep :: rest, i, errors => do
    let p ← jsGet (some ep) "path"
    let errors := if jsTruthyV p then errors else
      errors ++ ["Endpoint " ++ toString i ++ ": missing required field path"]
    let m ← jsGet (some ep) "method"
    let errors := if jsTruthyV m then errors else
      errors ++ ["Endpoint " ++ toString i ++ ": missing required field method"]
    let s ← jsGet (some ep) "summary"
    let errors := if jsTruthyV s then errors else
      errors ++ ["Endpoint " ++ toString i ++ ": missing required field summary"]
    validateEndpoints rest (i + 1) errors

/-- `validateBunYamlStructure` (api-gen.js lines 115-161), transcribed
statement by statement.  The `errors` list is accumulated exactly as the
source pushes messages; every property access is modelled by `jsGet`, so an
unguarded access such as `bunYaml.rules.header` with `rules` undefined
throws (`Except.error`), exactly as in JavaScript. -/
def validateBunYamlStructure (bunYaml : JVal) : Except Unit (List String) := do
  let errors : List String := []
  let version ← jsGet (some bunYaml) "version"
  let errors := if jsTruthyV version then errors else
    errors ++ ["Missing required field: version"]
  let rules ← jsGet (some bunYaml) "rules"
  let errors := if jsTruthyV rules then errors else
    errors ++ ["Missing required field: rules"]
  -- if (!bunYaml.rules.header) ... : accesses `.header` on `bunYaml.rules`
  -- even when `rules` is undefined, which throws.
  let header ← jsGet rules "header"
  let errors := if jsTruthyV header then errors else
    errors ++ ["Missing required field: rules.header"]
  let api ← jsGet rules "api"
  let errors := if jsTruthyV api then errors else
    errors ++ ["Missing required field: rules.api"]
  -- if (bunYaml.rules.header) { ... }
  let errors ← if jsTruthyV header then do
    let schema ← jsGet header "schema"
    let errors := if jsTruthyV schema then errors else
      errors ++ ["Missing required field: rules.header.schema"]
    -- if (!....schema.scope || !Array.isArray(....schema.scope)):
    -- accesses `.scope` on `schema` even when `schema` is undefined.
    let scope ← jsGet schema "scope"
    let errors := if !jsTruthyV scope || !jsIsArray scope then
      errors ++ ["rules.header.schema.scope must be an array"] else errors
    -- if (!....grep || !....grep.patterns): short-circuit, so a falsy
    -- `grep` is reported without touching `.patterns`.
    let grep ← jsGet header "grep"
    let errors ← if !jsTruthyV grep then
        pure (errors ++ ["Missing required field: rules.header.grep.patterns"])
      else do
        let patterns ← jsGet grep "patterns"
        pure (if jsTruthyV patterns then errors else
          errors ++ ["Missing required field: rules.header.grep.patterns"])
    pure errors
  else pure errors
  -- if (bunYaml.rules.api) { ... }
  let errors ← if jsTruthyV api then do
    let basePath ← jsGet api "basePath"
    let errors := if jsTruthyV basePath then errors else
      errors ++ ["Missing required field: rules.api.basePath"]
    let endpoints ← jsGet api "endpoints"
    let errors := if !jsTruthyV endpoints || !jsIsArray endpoints then
      errors ++ ["rules.api.endpoints must be an array"] else errors
    let errors ← match endpoints with
      | some (.arr eps) => validateEndpoints eps 0 errors
      | _ => pure errors
    let openapi ← jsGet api "openapi"
    let errors ← if jsTruthyV openapi then do
        let info ← jsGet openapi "info"
        let errors := if jsTruthyV info then errors else
          errors ++ ["Missing required field: rules.api.openapi.info"]
        -- if (!....openapi.info.title): accesses `.title` on `info` even
        -- when `info` is undefined.
        let title ← jsGet info "title"
        pure (if jsTruthyV title then errors else
          errors ++ ["Missing required field: rules.api.openapi.info.title"])
      else pure errors
    pure errors
  else pure errors
  pure errors

/-- `startsWithL h s`: `s` is a prefix of `h` (character lists). -/
def startsWithL : List Char → List Char → Bool
  | _, [] => true
  | [], _ :: _ => false
  | a :: as, b :: bs => a = b && startsWithL as bs

/-- `includesAux h s`: `s` occurs as a contiguous run inside `h`. -/
def includesAux : List Char → List Char → Bool
  | [], s => startsWithL [] s
  | c :: t, s => startsWithL (c :: t) s || includesAux t s

/-- The model of JavaScript `hay.includes(sub)` (substring containment). -/
def strIncludes (hay sub : String) : Bool :=
  includesAux hay.toList sub.toList

/-- The model of `pattern.split(Char.ofNat 42)[0]`: the portion of the string
before the first asterisk (the whole string when there is none). -/
def splitStar (p : String) : String :=
  String.mk (p.toList.takeWhile (fun c => c != '*'))

/-- An endpoint `x-source` hint: either an array of tag patterns or a single
pattern string (api-gen.js lines 233-255). -/
inductive XSource where
  | arr : List String → XSource
  | str : String → XSource

/-- The fields of a manifest Endpoint Declaration used by the generator
(`ep` in api-gen.js).  Absent fields are `none`. -/
structure Endpoint where
  summary : Option String := none
  description : Option String := none
  tags : Option (List String) := none
  xsource : Option XSource := none
  responses : Option (List (String × JVal)) := none

/-- Truthiness of the `ep` x-source field as tested by
`if (ep.xsource)`: arrays (even empty ones) are truthy, a string is truthy
iff non-empty. -/
def xsourceTruthy : Option XSource → Bool
  | none => false
  | some (.arr _) => true
  | some (.str s) => s != ""

/-- Truthiness of an optional string (`undefined` and the empty string are
falsy). -/
def strTruthy : Option String → Bool
  | none => false
  | some s => s != ""

/-- The files of all tag-index entries whose tag contains `x` as a
substring: `Object.entries(sources).filter(([tag, f]) =>
tag.includes(x)).map(([tag, f]) => f)`. -/
def tagMatches (sources : List (String × String)) (x : String) : List String :=
  (sources.filter (fun e => strIncludes e.1 x)).map Prod.snd

/-- The per-pattern callback of tier 1 (api-gen.js lines 236-243): exact tag
lookup first (truthiness-tested), otherwise the FIRST file whose tag
contains the pattern portion before the first asterisk; `null` (`none`) when
nothing matches. -/
def resolveArrPattern (sources : List (String × String)) (pattern : String) : Option String :=
  let exact := jsLookup sources pattern
  if strTruthy exact then exact
  else (tagMatches sources (splitStar pattern)).head?

/-- `.filter(Boolean)` over an array of file-or-null entries: drops `null`
and empty strings. -/
def jsFilterBoolean (l : List (Option String)) : List String :=
  l.filterMap (fun o => match o with
    | some s => if s != "" then some s else none
    | none => none)

/-- Order-preserving deduplication, the model of `[...new Set(list)]` (a
`Set` keeps first-occurrence order). -/
def jsDedup (l : List String) : List String :=
  l.foldl (fun acc s => if acc.contains s then acc else acc ++ [s]) []

/-- Tiers 3 and 4 of the source mapper (api-gen.js lines 257-271), reached
when the endpoint has no (truthy) `x-source`: union of substring matches of
the declared tags, deduplicated and capped at 3; with no tags at all, the
first 3 files of the whole tag index in index order. -/
def resolveByTags (ep : Endpoint) (sources : List (String × String)) : List String :=
  match ep.tags with
  | some tagList => (jsDedup (tagList.flatMap (fun tag => tagMatches sources tag))).take 3
  | none => (sources.map Prod.snd).take 3

/-- `resolveEndpointSources` (api-gen.js lines 231-272): the tiered
provenance resolution.  Tier 1: an `x-source` array is mapped per pattern
(at most one file each) and `.filter(Boolean)`-ed.  Tier 2: a non-empty
`x-source` string is looked up exactly, else its substring matches are
returned capped at 3.  Tiers 3/4: `resolveByTags`. -/
def resolveEndpointSources (ep : Endpoint) (sources : List (String × String)) : List String :=
  match ep.xsource with
  | some (.arr patterns) => jsFilterBoolean (patterns.map (resolveArrPattern sources))
  | some (.str s) =>
    if s != "" then
      let exact := jsLookup sources s
      if strTruthy exact then [exact.getD ""]
      else (tagMatches sources s).take 3
    else resolveByTags ep sources
  | none => resolveByTags ep sources

/-- A rule document as scanned by the corpus scanner: its path and its text
content. -/
structure ScanFile where
  path : String
  content : List Char

/-- Uppercase-letter test, the character class `A` to `Z`. -/
def isUp (c : Char) : Bool := 'A' ≤ c && c ≤ 'Z'

/-- Decimal-digit test, the character class `0` to `9`. -/
def isDig (c : Char) : Bool := '0' ≤ c && c ≤ '9'

/-- Anchored match of the tag regex (three uppercase letters, hyphen, one or
more uppercase letters, hyphen, three digits, in square brackets) at the
head of the input; returns the matched text.  The greedy run of uppercase
letters needs no backtracking: shortening it would put an uppercase letter
where the hyphen is required.  At most one substring anchored at a given
position can match, and this function finds it exactly when it exists. -/
def matchTagAt : List Char → Option (List Char)
  | '[' :: a :: b :: c :: d :: rest =>
    if isUp a && isUp b && isUp c && d = '-' then
      let w := rest.takeWhile isUp
      match w, rest.dropWhile isUp with
      | _ :: _, '-' :: d1 :: d2 :: d3 :: ']' :: _ =>
        if isDig d1 && isDig d2 && isDig d3 then
          some ('[' :: a :: b :: c :: '-' :: (w ++ '-' :: d1 :: d2 :: d3 :: [']']))
        else none
      | _, _ => none
    else none
  | _ => none

/-- `content.match(tagRegex)`: the leftmost match of the tag pattern, the
model of the JavaScript regexp search used at api-gen.js line 412. -/
def firstTagMatch : List Char → Option (List Char)
  | [] => none
  | c :: rest =>
    match matchTagAt (c :: rest) with
    | some t => some t
    | none => firstTagMatch rest

/-- The number of positions of the document at which the tag pattern has an
(anchored) match; `matchCount s = 1` states that the document contains
exactly one substring matching the pattern. -/
def matchCount : List Char → Nat
  | [] => 0
  | c :: rest => (if (matchTagAt (c :: rest)).isSome then 1 else 0) + matchCount rest

/-- The first tag of a scanned file, as a `String` index key. -/
def tagOf (f : ScanFile) : Option String :=
  (firstTagMatch f.content).map String.mk

/-- One iteration of the tag-index construction loop: extract the first tag
match of the file and, when present, assign `sources[tag] = mdFile`. -/
def scanStep (acc : List (String × String)) (f : ScanFile) : List (String × String) :=
  match tagOf f with
  | some t => jsInsert t f.path acc
  | none => acc

/-- The tag-index construction loop of `generateOpenAPI` (api-gen.js lines
409-419): the files in scan order, folded through `scanStep`. -/
def buildSources (files : List ScanFile) : List (String × String) :=
  files.foldl scanStep []

/-- The built-in `Scope` schema (api-gen.js lines 505-509), assigned
unconditionally. -/
def scopeSchema (scope : List String) : JVal :=
  .obj [("type", .str "string"), ("enum", .arr (scope.map .str)),
        ("description", .str "Available governance scopes")]

/-- The built-in error-shape default (api-gen.js lines 512-522), inserted
only when the name is absent. -/
def errorSchema : JVal :=
  .obj [("type", .str "object"),
        ("properties", .obj
          [("error", .obj [("type", .str "string")]),
           ("message", .obj [("type", .str "string")]),
           ("timestamp", .obj [("type", .str "string"), ("format", .str "date-time")]),
           ("code", .obj [("type", .str "string")])])]

/-- The built-in `ValidationResult` default (api-gen.js lines 524-534). -/
def validationResultSchema : JVal :=
  .obj [("type", .str "object"),
        ("properties", .obj
          [("valid", .obj [("type", .str "boolean")]),
           ("headers", .obj [("type", .str "integer")]),
           ("violations", .obj [("type", .str "array"),
              ("items", .obj [("type", .str "string")])]),
           ("timestamp", .obj [("type", .str "string"), ("format", .str "date-time")])])]

/-- The built-in `SearchResult` default (api-gen.js lines 536-547). -/
def searchResultSchema : JVal :=
  .obj [("type", .str "object"),
        ("properties", .obj
          [("query", .obj [("type", .str "string")]),
           ("scope", .obj [("type", .str "string")]),
           ("results", .obj [("type", .str "array"),
              ("items", .obj [("type", .str "object")])]),
           ("total", .obj [("type", .str "integer")]),
           ("cached", .obj [("type", .str "boolean")])])]

/-- The schema-registry assembly of `generateOpenAPI` (api-gen.js lines
498-547): start from the empty registry, `Object.assign` the
corpus-discovered semantic schemas (overwrite semantics), assign the `Scope`
schema unconditionally, then insert each remaining built-in default only
when its name is not already bound to a truthy value. -/
def buildSchemaRegistry (semanticSchemas : List (String × JVal)) (scope : List String) :
    List (String × JVal) :=
  let schemas : List (String × JVal) := []
  let schemas := jsAssign schemas semanticSchemas
  let schemas := jsInsert "Scope" (scopeSchema scope) schemas
  let schemas := if jsTruthyV (jsLookup schemas "Error") then schemas
    else jsInsert "Error" errorSchema schemas
  let schemas := if jsTruthyV (jsLookup schemas "ValidationResult") then schemas
    else jsInsert "ValidationResult" validationResultSchema schemas
  let schemas := if jsTruthyV (jsLookup schemas "SearchResult") then schemas
    else jsInsert "SearchResult" searchResultSchema schemas
  schemas

/-- The operation object the generator writes into
`spec.paths[path][method]` (api-gen.js lines 444-478), restricted to the
fields the linter and auditor read.  The `responses` key is always written:
`ep.responses ? clone(ep.responses) : empty` (reference resolution rewrites
inner reference markers only and neither adds nor removes response-status
keys, so it is omitted here). -/
structure EmittedOp where
  summary : Option String
  description : Option String
  responses : List (String × JVal)

/-- The emission of one endpoint declaration into the Contract Document. -/
def emitOperation (ep : Endpoint) : EmittedOp :=
  { summary := ep.summary
    description := ep.description
    responses := ep.responses.getD [] }

/-- An operation as inspected by the linter loop: the `responses` key may be
absent (`none`) in a hand-written spec. -/
structure LintOp where
  summary : Option String
  description : Option String
  responses : Option (List (String × JVal))

/-- A generated operation viewed by the linter: its `responses` key is
present. -/
def lintOpOf (op : EmittedOp) : LintOp :=
  ⟨op.summary, op.description, some op.responses⟩

/-- The per-operation body of the linter loop (api-gen.js lines 678-694),
returning its contribution `(errors, warnings)`.  A missing
`summary`/`description` pair is a warning; a falsy `responses` value is an
error; then the source reads `operation.responses` twice more without a
guard, which throws a `TypeError` when the key is absent, so the error
count of that branch is lost to the exception. -/
def lintOperation (op : LintOp) : Except Unit (Nat × Nat) :=
  let w0 : Nat := if !strTruthy op.summary && !strTruthy op.description then 1 else 0
  match op.responses with
  | none => .error ()
  | some rs =>
    let e0 : Nat := 0
    let w1 : Nat := if !jsTruthyV (jsLookup rs "200") && !jsTruthyV (jsLookup rs "201") then 1
      else 0
    .ok (e0, w0 + w1)

/-- One entry of the breaking-change report (`breakingChanges.push` strings,
api-gen.js lines 726, 737, 760). -/
inductive BChange where
  | removedPath : String → BChange
  | removedOp : String → String → BChange
  | changed : String → String → String → BChange
deriving DecidableEq

/-- A path item of a spec snapshot: method name to operation, the operation
being its optional response map (`op.responses` may be absent).  The
response values are an arbitrary type `ρ` with decidable equality:
`JSON.stringify` equality of two response objects that were parsed from
JSON with preserved key order is exactly structural equality. -/
abbrev BOps (ρ : Type) := List (String × Option (List (String × ρ)))

/-- A spec snapshot for the breaking-change detector: path to path item. -/
abbrev BSpec (ρ : Type) := List (String × BOps ρ)

/-- `detectBreakingChanges` (api-gen.js lines 711-772), comparison phases in
source order: removed paths, removed methods of shared paths, then shared
responses whose serialized form differs (`JSON.stringify` inequality,
modelled as structural inequality).  Loading and parse failure of the
previous-spec file are outside the comparison and not modelled. -/
def detectBreakingChanges {ρ : Type} [DecidableEq ρ] (newSpec oldSpec : BSpec ρ) :
    List BChange :=
  let newPaths := newSpec.map Prod.fst
  let oldPaths := oldSpec.map Prod.fst
  let removedPaths := (oldPaths.filter (fun p => !newPaths.contains p)).map BChange.removedPath
  let removedOps := newPaths.flatMap (fun path =>
    match jsLookup oldSpec path, jsLookup newSpec path with
    | some oldOps, some newOps =>
      ((oldOps.map Prod.fst).filter (fun m => !(newOps.map Prod.fst).contains m)).map
        (fun m => BChange.removedOp m path)
    | _, _ => [])
  let changed := newPaths.flatMap (fun path =>
    match jsLookup oldSpec path, jsLookup newSpec path with
    | some oldOps, some newOps =>
      newOps.flatMap (fun mop =>
        match jsLookup oldOps mop.1 with
        | some oldOp =>
          let newRs := mop.2.getD []
          let oldRs := oldOp.getD []
          (((newRs.map Prod.fst).filter (fun code =>
              (oldRs.map Prod.fst).contains code &&
              decide (jsLookup newRs code ≠ jsLookup oldRs code))).map
            (fun code => BChange.changed mop.1 path code))
        | none => [])
    | _, _ => [])
  removedPaths ++ removedOps ++ changed

/-- The serialized artifact as read by the auditor: path, then method, then
the optional `x-source` array of that operation. -/
abbrev AuditPaths := List (String × List (String × Option (List String)))

/-- The auditor report (`TraceabilityReport`, audit-traceability.ts). -/
structure TraceReport where
  totalEndpoints : Nat
  tracedEndpoints : Nat
  orphanEndpoints : List String
  traceabilityPercent : ℚ
  passed : Bool
  details : List (String × List String × Bool)

/-- The number of operations (method-path pairs summed over all paths) of a
serialized artifact: the `N` of the traceability-arithmetic property. -/
def totalOperations (paths : AuditPaths) : Nat :=
  (paths.map (fun pe => pe.2.length)).sum

/-- `analyzeTraceability` (audit-traceability.ts, api-gen.js lines
1887-1940): `totalEndpoints` is `Object.keys(paths).length` (the number of
path keys), while tracing, orphan collection and `details` run per
method-path pair; the percentage divides the per-operation traced count by
the per-path total (0 when there are no paths), and `passed` compares the
percentage against the hardcoded 95. -/
def analyzeTraceability (paths : AuditPaths) : TraceReport :=
  let totalEndpoints := paths.length
  let dets := paths.flatMap (fun pe => pe.2.map (fun me =>
    let sources := me.2.getD []
    (me.1.toUpper ++ " " ++ pe.1, sources, decide (0 < sources.length))))
  let tracedEndpoints := (dets.filter (fun d => d.2.2)).length
  let orphanEndpoints := (dets.filter (fun d => !d.2.2)).map Prod.fst
  let traceabilityPercent : ℚ :=
    if 0 < totalEndpoints then ((tracedEndpoints : ℚ) / (totalEndpoints : ℚ)) * 100 else 0
  { totalEndpoints := totalEndpoints
    tracedEndpoints := tracedEndpoints
    orphanEndpoints := orphanEndpoints
    traceabilityPercent := traceabilityPercent
    passed := decide (95 ≤ traceabilityPercent)
    details := dets }

/-- `validateSourceFiles` (audit-traceability.ts, api-gen.js lines
1943-1970): immediately true when strict mode is off; otherwise every
source of every traced detail must be readable.  The file system is
modelled by the list `existing` of readable paths; the `checkedFiles`
deduplication does not affect the resulting boolean. -/
def validateSourceFiles (strict : Bool) (report : TraceReport) (existing : List String) :
    Bool :=
  if !strict then true
  else report.details.all (fun d =>
    if d.2.2 then d.2.1.all (fun s => existing.contains s) else true)

/-- The terminal phase of `auditTraceability` (api-gen.js lines 2016-2055):
exit 1 when `report.passed` (percentage ≥ 95) fails or the percentage is
below the configured threshold; else exit 2 when strict validation found a
missing file; else exit 0. -/
def auditExit (paths : AuditPaths) (minThreshold : ℚ) (strict : Bool)
    (existing : List String) : Nat :=
  let report := analyzeTraceability paths
  let sourcesValid := validateSourceFiles strict report existing
  let thresholdPassed := decide (minThreshold ≤ report.traceabilityPercent)
  if !report.passed || !thresholdPassed then 1
  else if strict && !sourcesValid then 2
  else 0

theorem jsLookup_jsInsert_self {α : Type} (k : String) (v : α) (l : List (String × α)) :
    jsLookup (jsInsert k v l) k = some v := by
  induction l with
  | nil => simp [jsInsert, jsLookup]
  | cons e rest ih =>
    obtain ⟨a, b⟩ := e
    by_cases h : a = k <;> simp [jsInsert, jsLookup, h, ih]

theorem jsLookup_jsInsert_ne {α : Type} {k q : String} (v : α) (l : List (String × α))
    (h : q ≠ k) : jsLookup (jsInsert k v l) q = jsLookup l q := by
  have hkq : k ≠ q := fun hk => h hk.symm
  induction l with
  | nil => simp [jsInsert, jsLookup, hkq]
  | cons e rest ih =>
    obtain ⟨a, b⟩ := e
    by_cases ha : a = k
    · subst ha
      simp [jsInsert, jsLookup, hkq]
    · simp [jsInsert, jsLookup, ha, ih]

theorem jsLookup_mem {α : Type} {l : List (String × α)} {k : String} {v : α}
    (h : jsLookup l k = some v) : (k, v) ∈ l := by
  induction l with
  | nil => simp [jsLookup] at h
  | cons e rest ih =>
    obtain ⟨a, b⟩ := e
    by_cases ha : a = k
    · subst ha
      simp [jsLookup] at h
      simp [h]
    · simp [jsLookup, ha] at h
      exact List.mem_cons_of_mem _ (ih h)

theorem jsLookup_isSome_mem_keys {α : Type} {l : List (String × α)} {k : String} {v : α}
    (h : jsLookup l k = some v) : k ∈ l.map Prod.fst :=
  List.mem_map.mpr ⟨(k, v), jsLookup_mem h, rfl⟩

/-- A manifest that is missing the `rules` field: the first failing input of
the validator claim. -/
def manifestMissingRules : JVal := .obj [("version", .str "1.0.0")]

/-- A manifest whose `rules.header` is present but empty (so
`rules.header.schema` is missing). -/
def manifestMissingSchema : JVal :=
  .obj [("version", .str "1"), ("rules", .obj [("header", .obj []), ("api", .obj [])])]

/-- A structurally navigable manifest with several violations, used to show
that accumulation works when no unguarded access crashes. -/
def manifestManyViolations : JVal :=
  .obj [("rules", .obj
    [("header", .obj [("schema", .obj [("scope", .arr [])]), ("grep", .obj [])]),
     ("api", .obj [])])]

/-- A fully well-formed manifest. -/
def manifestOk : JVal :=
  .obj [("version", .str "1.0.0"),
        ("rules", .obj
          [("header", .obj
            [("schema", .obj [("scope", .arr [.str "GOV", .str "SEC"])]),
             ("grep", .obj [("patterns", .arr [.str "x"])])]),
           ("api", .obj
            [("basePath", .str "/api/v1"),
             ("endpoints", .arr
               [.obj [("path", .str "/rules/grep"), ("method", .str "GET"),
                      ("summary", .str "Search rules")]]),
             ("openapi", .obj [("info", .obj [("title", .str "Citadel API")])])])])]

/-- C4: the claim states that for every input manifest, even one missing
`rules`, `rules.header` or `rules.header.schema`, the validator runs to
completion and returns the full itemized violation list.  The code is a
slip against that intent: it pushes the `rules` violation and then
immediately dereferences `bunYaml.rules.header`, so a manifest without
`rules` makes it throw a `TypeError` (`Except.error`) instead of returning
the list; likewise a present-but-schemaless `rules.header` crashes at
`rules.header.schema.scope`.  On inputs where no unguarded access fires,
accumulation does work and all violations are listed. -/
theorem c4_code_eval :
    validateBunYamlStructure manifestMissingRules = .error ()
    ∧ validateBunYamlStructure manifestMissingSchema = .error ()
    ∧ validateBunYamlStructure manifestOk = .ok []
    ∧ validateBunYamlStructure manifestManyViolations =
        .ok ["Missing required field: version",
             "Missing required field: rules.header.grep.patterns",
             "Missing required field: rules.api.basePath",
             "rules.api.endpoints must be an array"] :=
  ⟨rfl, rfl, rfl, rfl⟩

/-- The two-method single-path artifact on which the auditor percentage
departs from the claimed `100 × T / N`. -/
def c2Artifact : AuditPaths :=
  [("/a", [("get", some ["rules/x.md"]), ("post", some ["rules/x.md"])])]

/-- C2: the claim states the computed percentage equals `100 × T / N` with
`N` the number of operations (method-path pairs).  The code tallies the
traced count `T` per operation but takes the denominator from
`Object.keys(paths).length`, the number of path keys, so an artifact with
one path carrying two traced operations is reported as 200% — the code
contradicts its own report semantics (a percentage above 100, and a total
that does not reconcile with its traced and orphan counts).  The `N = 0`
half of the claim does hold. -/
theorem c2_code_eval :
    (analyzeTraceability c2Artifact).traceabilityPercent = 200
    ∧ (analyzeTraceability c2Artifact).totalEndpoints = 1
    ∧ (analyzeTraceability c2Artifact).tracedEndpoints = 2
    ∧ totalOperations c2Artifact = 2
    ∧ (100 * (2 : ℚ) / 2) = 100
    ∧ (analyzeTraceability []).traceabilityPercent = 0 := by
  refine ⟨?_, rfl, rfl, rfl, by norm_num, rfl⟩
  norm_num [analyzeTraceability, c2Artifact]

/-- The five-operation artifact with 80% traceability used against the
auditor exit-code claim. -/
def c1Artifact : AuditPaths :=
  [("/a", [("get", some ["r/a.md"])]),
   ("/b", [("get", some ["r/b.md"])]),
   ("/c", [("get", some ["r/c.md"])]),
   ("/d", [("get", some ["r/d.md"])]),
   ("/e", [("get", none)])]

/-- C1 counterexample: the claim says exit 0 whenever the percentage is at
least the configured threshold (here 50) and strict mode is off.  At 80%
traceability with threshold 50 and strict off, the audit exits 1, because
`analyzeTraceability` hardcodes `passed := percent ≥ 95` independently of
the configured threshold. -/
theorem c1_counterexample :
    auditExit c1Artifact 50 false [] = 1
    ∧ (analyzeTraceability c1Artifact).traceabilityPercent = 80
    ∧ ((50 : ℚ) ≤ 80) := by
  have hpass : (analyzeTraceability c1Artifact).passed = false := by
    norm_num [analyzeTraceability, c1Artifact]
  refine ⟨by simp [auditExit, hpass], ?_, by norm_num⟩
  norm_num [analyzeTraceability, c1Artifact]

/-- C3 counterexample: an endpoint that declares zero responses.  The claim
says its emitted response map is non-empty (a synthesized default) or the
linter flags the operation with an error.  Neither happens: the generator
emits an empty response map, and the linter — whose missing-responses error
fires only when the `responses` key is absent — contributes zero errors and
one missing-success-response warning for it. -/
theorem c3_counterexample :
    (emitOperation { summary := some "List grep rules" }).responses = []
    ∧ lintOperation (lintOpOf (emitOperation { summary := some "List grep rules" })) =
        .ok (0, 1) :=
  ⟨rfl, rfl⟩

/-- C5 counterexample: two snapshots of `GET /a` that differ only in the
description component of the shared `200` response (the schema component is
identical).  The claim says no CHANGED entry is reported; the detector
compares the full serialized response object, so it reports one. -/
theorem c5_counterexample :
    detectBreakingChanges (ρ := String × String)
      [("/a", [("get", some [("200", ("New description", "SchemaX"))])])]
      [("/a", [("get", some [("200", ("Old description", "SchemaX"))])])]
      = [BChange.changed "get" "/a" "200"]
    ∧ ("New description", "SchemaX").2 = ("Old description", "SchemaX").2 := by
  refine ⟨by decide, rfl⟩

/-- The two-entry tag index used against the tier-1 collect-all claim. -/
def c6Index : List (String × String) :=
  [("GOV-HEADER-001", "rules/gov/gov-header-001.md"),
   ("GOV-GREP-002", "rules/gov/gov-grep-002.md")]

/-- C6 counterexample: the endpoint declares the explicit pattern list
`[GOV]`; both index tags contain `GOV` as a substring, so the claim
(collect all matches per pattern) requires both files.  The code keeps only
`matches[0]` per pattern, so the second matching file is absent. -/
theorem c6_counterexample :
    resolveEndpointSources { xsource := some (XSource.arr ["GOV"]) } c6Index =
      ["rules/gov/gov-header-001.md"]
    ∧ strIncludes "GOV-GREP-002" "GOV" = true
    ∧ "rules/gov/gov-grep-002.md" ∉
        resolveEndpointSources { xsource := some (XSource.arr ["GOV"]) } c6Index := by
  refine ⟨by decide, by decide, by decide⟩

/-- A corpus-discovered schema for the reserved name `Error`. -/
def corpusError : JVal := .obj [("type", .str "string")]

/-- C8 counterexample: the claim says a corpus-discovered definition for a
reserved built-in name does not override the built-in.  The corpus schemas
are assigned into the registry first and the `Error` built-in default is
inserted only if the name is then absent, so the final registry binds
`Error` to the corpus-discovered schema, not to the built-in error shape. -/
theorem c8_counterexample :
    jsLookup (buildSchemaRegistry [("Error", corpusError)] []) "Error" = some corpusError
    ∧ corpusError ≠ errorSchema := by
  refine ⟨rfl, by simp [corpusError, errorSchema]⟩

/-- C7: an endpoint with no provenance hints at all (no `x-source`, no tags)
resolves, for every non-empty tag index, to exactly the first 3 entries of
the index in index order — a non-empty list of length at most 3. -/
theorem c7_fallback (sources : List (String × String)) (h : sources ≠ []) :
    resolveEndpointSources {} sources = (sources.map Prod.snd).take 3
    ∧ resolveEndpointSources {} sources ≠ []
    ∧ (resolveEndpointSources {} sources).length ≤ 3 := by
  have he : resolveEndpointSources ({} : Endpoint) sources = (sources.map Prod.snd).take 3 := rfl
  refine ⟨he, ?_, ?_⟩
  · rw [he]
    cases sources with
    | nil => exact absurd rfl h
    | cons e l => simp
  · rw [he]
    simp [List.length_take]

theorem c7_fallback_witness :
    resolveEndpointSources {} [("GOV-HEADER-001", "rules/gov/gov-header-001.md")] =
      ["rules/gov/gov-header-001.md"]
    ∧ (resolveEndpointSources {} [("GOV-HEADER-001", "rules/gov/gov-header-001.md")]).length ≤ 3 :=
  ⟨(c7_fallback [("GOV-HEADER-001", "rules/gov/gov-header-001.md")] (by simp)).1,
   (c7_fallback [("GOV-HEADER-001", "rules/gov/gov-header-001.md")] (by simp)).2.2⟩

/-- C6 amended: for an endpoint declaring an explicit list of tag patterns,
each pattern contributes at most ONE file (so the result is never longer
than the pattern list): the exact tag match when one exists, otherwise only
the FIRST entry whose tag contains the pattern portion before the first
asterisk — not all substring matches as the claim stated. -/
theorem c6_amended (sources : List (String × String)) (ps : List String) (p f : String)
    (hx : jsLookup sources p = some f) (hf : f ≠ "") :
    (resolveEndpointSources { xsource := some (XSource.arr ps) } sources).length ≤ ps.length
    ∧ resolveArrPattern sources p = some f
    ∧ (∀ q, jsLookup sources q = none →
        resolveArrPattern sources q = (tagMatches sources (splitStar q)).head?) := by
  refine ⟨?_, ?_, ?_⟩
  · show (jsFilterBoolean (ps.map (resolveArrPattern sources))).length ≤ ps.length
    have h1 := List.length_filterMap_le
      (fun o => match o with
        | some s => if s != "" then some s else none
        | none => none)
      (ps.map (resolveArrPattern sources))
    simpa [jsFilterBoolean] using h1
  · simp [resolveArrPattern, hx, strTruthy, hf]
  · intro q hq
    simp [resolveArrPattern, hq, strTruthy]

theorem c6_amended_witness :
    resolveArrPattern c6Index "GOV-HEADER-001" = some "rules/gov/gov-header-001.md"
    ∧ (resolveEndpointSources
        { xsource := some (XSource.arr ["GOV-HEADER-001"]) } c6Index).length ≤ 1 := by
  have h := c6_amended c6Index ["GOV-HEADER-001"] "GOV-HEADER-001"
    "rules/gov/gov-header-001.md" rfl (by decide)
  exact ⟨h.2.1, by simpa using h.1⟩

/-- C3 amended: the generator always writes a `responses` key (so the linter
never takes its missing-responses error branch on a generated operation —
the error contribution of every emitted operation is 0), but when the
manifest endpoint declared zero responses the emitted response map is
EMPTY: no default response is synthesized, and the operation draws only the
missing-success-response warning, not an error. -/
theorem c3_amended (ep : Endpoint) :
    (∃ w, lintOperation (lintOpOf (emitOperation ep)) = .ok (0, w))
    ∧ (ep.responses = none → (emitOperation ep).responses = []) := by
  constructor
  · exact ⟨_, rfl⟩
  · intro h
    simp [emitOperation, h]

theorem c3_amended_witness :
    (emitOperation { summary := some "Search governance rules" }).responses = []
    ∧ (∃ w, lintOperation
        (lintOpOf (emitOperation { summary := some "Search governance rules" })) = .ok (0, w)) :=
  ⟨(c3_amended { summary := some "Search governance rules" }).2 rfl,
   (c3_amended { summary := some "Search governance rules" }).1⟩

theorem jsLookup_condInsert {α : Type} (c : Bool) (k q : String) (v : α)
    (l : List (String × α)) (h : q ≠ k) :
    jsLookup (if c then l else jsInsert k v l) q = jsLookup l q := by
  cases c
  · simp [jsLookup_jsInsert_ne _ _ h]
  · simp

/-- C8 amended: the corpus-discovered schemas are assigned into the registry
FIRST; the `Scope` built-in is then assigned unconditionally (so for the
reserved name `Scope` the built-in does override a corpus definition), and
the remaining built-in defaults (`Error`, `ValidationResult`,
`SearchResult`) are inserted only if their name is still absent — so for
those reserved names a corpus-discovered definition displaces the built-in
default, the opposite of the claimed direction; the built-in appears only
when the corpus defined nothing under the name. -/
theorem c8_amended (ss : List (String × JVal)) (scope : List String) (v : JVal)
    (hv : jsLookup (jsAssign [] ss) "Error" = some v) (ht : jsTruthyV (some v) = true) :
    jsLookup (buildSchemaRegistry ss scope) "Scope" = some (scopeSchema scope)
    ∧ jsLookup (buildSchemaRegistry ss scope) "Error" = some v
    ∧ (∀ ss2, jsLookup (jsAssign [] ss2) "Error" = none →
        jsLookup (buildSchemaRegistry ss2 scope) "Error" = some errorSchema) := by
  have hES : ("Error" : String) ≠ "Scope" := by decide
  have hEV : ("Error" : String) ≠ "ValidationResult" := by decide
  have hESr : ("Error" : String) ≠ "SearchResult" := by decide
  have hSV : ("Scope" : String) ≠ "ValidationResult" := by decide
  have hSSr : ("Scope" : String) ≠ "SearchResult" := by decide
  have hSE : ("Scope" : String) ≠ "Error" := by decide
  refine ⟨?_, ?_, ?_⟩
  · simp only [buildSchemaRegistry]
    rw [jsLookup_condInsert _ _ _ _ _ hSSr, jsLookup_condInsert _ _ _ _ _ hSV,
      jsLookup_condInsert _ _ _ _ _ hSE, jsLookup_jsInsert_self]
  · simp only [buildSchemaRegistry]
    rw [jsLookup_condInsert _ _ _ _ _ hESr, jsLookup_condInsert _ _ _ _ _ hEV]
    rw [jsLookup_jsInsert_ne _ _ hES, hv, ht]
    simp [jsLookup_jsInsert_ne _ _ hES, hv]
  · intro ss2 h2
    simp only [buildSchemaRegistry]
    rw [jsLookup_condInsert _ _ _ _ _ hESr, jsLookup_condInsert _ _ _ _ _ hEV]
    rw [jsLookup_jsInsert_ne _ _ hES, h2]
    simp [jsTruthyV, jsLookup_jsInsert_self]

theorem c8_amended_witness :
    jsLookup (buildSchemaRegistry [("Error", corpusError)] ["GOV"]) "Error" = some corpusError
    ∧ jsLookup (buildSchemaRegistry [("Error", corpusError)] ["GOV"]) "Scope" =
        some (scopeSchema ["GOV"]) := by
  have h := c8_amended [("Error", corpusError)] ["GOV"] corpusError rfl rfl
  exact ⟨h.2.1, h.1⟩

/-- C5 amended: for every pair of snapshots sharing a path, a method and a
response status, the detector reports a CHANGED entry for that response
exactly whenever the serialized response objects differ — including when
they differ only in description text.  The comparison is full-value
equality of the serialized response object, not a schema-shape
comparison. -/
theorem c5_amended {ρ : Type} [DecidableEq ρ] (newSpec oldSpec : BSpec ρ)
    (path method code : String) (newOps oldOps : BOps ρ)
    (opN opO : Option (List (String × ρ)))
    (h1 : jsLookup newSpec path = some newOps)
    (h2 : jsLookup oldSpec path = some oldOps)
    (h3 : (method, opN) ∈ newOps)
    (h4 : jsLookup oldOps method = some opO)
    (h5 : code ∈ (opN.getD []).map Prod.fst)
    (h6 : code ∈ (opO.getD []).map Prod.fst)
    (h7 : jsLookup (opN.getD []) code ≠ jsLookup (opO.getD []) code) :
    BChange.changed method path code ∈ detectBreakingChanges newSpec oldSpec := by
  simp only [detectBreakingChanges]
  refine List.mem_append.mpr (Or.inr ?_)
  refine List.mem_flatMap.mpr ⟨path, jsLookup_isSome_mem_keys h1, ?_⟩
  rw [h1, h2]
  refine List.mem_flatMap.mpr ⟨(method, opN), h3, ?_⟩
  rw [h4]
  refine List.mem_map.mpr ⟨code, List.mem_filter.mpr ⟨h5, ?_⟩, rfl⟩
  simp [h6, h7]

theorem c5_amended_witness :
    BChange.changed "get" "/a" "200" ∈
      detectBreakingChanges (ρ := String × String)
        [("/a", [("get", some [("200", ("New description", "SchemaX"))])])]
        [("/a", [("get", some [("200", ("Old description", "SchemaX"))])])] :=
  c5_amended
    [("/a", [("get", some [("200", ("New description", "SchemaX"))])])]
    [("/a", [("get", some [("200", ("Old description", "SchemaX"))])])]
    "/a" "get" "200"
    [("get", some [("200", ("New description", "SchemaX"))])]
    [("get", some [("200", ("Old description", "SchemaX"))])]
    (some [("200", ("New description", "SchemaX"))])
    (some [("200", ("Old description", "SchemaX"))])
    rfl rfl (by simp) rfl (by simp) (by simp) (by decide)

theorem analyzeTraceability_passed (paths : AuditPaths) :
    (analyzeTraceability paths).passed =
      decide (95 ≤ (analyzeTraceability paths).traceabilityPercent) := rfl

/-- The specification-side reading of strict source validation: every
source of every traced detail entry exists. -/
def allSourcesExist (r : TraceReport) (existing : List String) : Prop :=
  ∀ d ∈ r.details, d.2.2 = true → ∀ s ∈ d.2.1, s ∈ existing

theorem validateSourceFiles_iff (strict : Bool) (r : TraceReport) (existing : List String) :
    validateSourceFiles strict r existing = true ↔
      (strict = true → allSourcesExist r existing) := by
  cases strict
  · simp [validateSourceFiles]
  · have hv : validateSourceFiles true r existing =
        (r.details.all fun d => if d.2.2 = true then d.2.1.all fun s => existing.contains s
          else true) := by
      simp [validateSourceFiles]
    rw [hv, List.all_eq_true]
    unfold allSourcesExist
    constructor
    · intro h _ d hd hds s hs
      have hdd := h d hd
      rw [if_pos hds, List.all_eq_true] at hdd
      simpa using hdd s hs
    · intro h d hd
      by_cases hds : d.2.2 = true
      · rw [if_pos hds, List.all_eq_true]
        intro s hs
        simpa using h rfl d hd hds s hs
      · rw [if_neg hds]

theorem auditExit_eq (paths : AuditPaths) (thr : ℚ) (strict : Bool) (existing : List String) :
    auditExit paths thr strict existing =
      if 95 ≤ (analyzeTraceability paths).traceabilityPercent
          ∧ thr ≤ (analyzeTraceability paths).traceabilityPercent then
        (if strict = true
            ∧ validateSourceFiles strict (analyzeTraceability paths) existing = false then 2
          else 0)
      else 1 := by
  cases strict
  · by_cases h95 : (95 : ℚ) ≤ (analyzeTraceability paths).traceabilityPercent <;>
      by_cases hthr : thr ≤ (analyzeTraceability paths).traceabilityPercent <;>
        simp [auditExit, analyzeTraceability_passed, h95, hthr]
  · by_cases h95 : (95 : ℚ) ≤ (analyzeTraceability paths).traceabilityPercent <;>
      by_cases hthr : thr ≤ (analyzeTraceability paths).traceabilityPercent <;>
        rcases Bool.eq_false_or_eq_true
          (validateSourceFiles true (analyzeTraceability paths) existing) with hv | hv <;>
          simp [auditExit, analyzeTraceability_passed, h95, hthr, hv]

/-- C1 amended: the three terminal exit codes of the auditor, as the code
computes them.  Exit 0 requires the percentage to clear BOTH the configured
threshold and a hardcoded 95 floor (`analyzeTraceability` sets `passed` to
`percent ≥ 95` regardless of the `--min` flag), together with strict-source
validity; exit 1 fires when either bound fails; exit 2 fires when both
bounds hold but strict validation found a missing referenced source. -/
theorem c1_amended (paths : AuditPaths) (thr : ℚ) (strict : Bool) (existing : List String) :
    (auditExit paths thr strict existing = 0 ↔
      (95 ≤ (analyzeTraceability paths).traceabilityPercent
        ∧ thr ≤ (analyzeTraceability paths).traceabilityPercent
        ∧ (strict = true → allSourcesExist (analyzeTraceability paths) existing)))
    ∧ (auditExit paths thr strict existing = 1 ↔
      ((analyzeTraceability paths).traceabilityPercent < 95
        ∨ (analyzeTraceability paths).traceabilityPercent < thr))
    ∧ (auditExit paths thr strict existing = 2 ↔
      (95 ≤ (analyzeTraceability paths).traceabilityPercent
        ∧ thr ≤ (analyzeTraceability paths).traceabilityPercent
        ∧ strict = true
        ∧ ¬allSourcesExist (analyzeTraceability paths) existing)) := by
  have hV := validateSourceFiles_iff strict (analyzeTraceability paths) existing
  simp only [auditExit_eq]
  by_cases h95 : (95 : ℚ) ≤ (analyzeTraceability paths).traceabilityPercent
  · by_cases hthr : thr ≤ (analyzeTraceability paths).traceabilityPercent
    · have h95n : ¬((analyzeTraceability paths).traceabilityPercent < 95) := not_lt.mpr h95
      have hthrn : ¬((analyzeTraceability paths).traceabilityPercent < thr) := not_lt.mpr hthr
      cases strict
      · simp [h95, hthr, h95n, hthrn]
      · rcases Bool.eq_false_or_eq_true
          (validateSourceFiles true (analyzeTraceability paths) existing) with hv | hv
        · have hprop := hV.mp hv rfl
          simp [h95, hthr, h95n, hthrn, hv, hprop]
        · have hprop : ¬allSourcesExist (analyzeTraceability paths) existing := by
            intro hp
            have h1 := hV.mpr (fun _ => hp)
            rw [hv] at h1
            exact Bool.false_ne_true h1
          simp [h95, hthr, h95n, hthrn, hv, hprop]
    · have hthrl : (analyzeTraceability paths).traceabilityPercent < thr := not_le.mp hthr
      simp [h95, hthr, hthrl]
  · have h95l : (analyzeTraceability paths).traceabilityPercent < 95 := not_le.mp h95
    simp [h95, h95l]

theorem firstTagMatch_of_count_zero (s : List Char) (h : matchCount s = 0) :
    firstTagMatch s = none := by
  induction s with
  | nil => rfl
  | cons c rest ih =>
    rw [matchCount] at h
    cases hm : matchTagAt (c :: rest) with
    | some t =>
      rw [hm] at h
      simp at h
    | none =>
      rw [hm] at h
      simp at h
      rw [firstTagMatch, hm]
      exact ih h

theorem matchCount_pos_of_drop (s : List Char) (i : Nat) (t : List Char)
    (h : matchTagAt (s.drop i) = some t) : 0 < matchCount s := by
  induction s generalizing i with
  | nil =>
    rw [List.drop_nil] at h
    simp [matchTagAt] at h
  | cons c rest ih =>
    cases i with
    | zero =>
      rw [List.drop_zero] at h
      simp [matchCount, h]
    | succ j =>
      have hj := ih j (by simpa using h)
      rw [matchCount]
      omega

theorem firstTagMatch_of_count_one :
    ∀ (s : List Char) (i : Nat) (t : List Char), matchCount s = 1 →
      matchTagAt (s.drop i) = some t → firstTagMatch s = some t := by
  intro s
  induction s with
  | nil =>
    intro i t _ h2
    rw [List.drop_nil] at h2
    simp [matchTagAt] at h2
  | cons c rest ih =>
    intro i t h1 h2
    cases hm : matchTagAt (c :: rest) with
    | some t0 =>
      have hr0 : matchCount rest = 0 := by
        rw [matchCount, hm] at h1
        simp at h1
        omega
      cases i with
      | zero =>
        rw [List.drop_zero] at h2
        rw [firstTagMatch, hm]
        rw [hm] at h2
        exact h2
      | succ j =>
        have := matchCount_pos_of_drop rest j t (by simpa using h2)
        omega
    | none =>
      have hr1 : matchCount rest = 1 := by
        rw [matchCount, hm] at h1
        simpa using h1
      cases i with
      | zero =>
        rw [List.drop_zero] at h2
        rw [hm] at h2
        cases h2
      | succ j =>
        rw [firstTagMatch, hm]
        exact ih j t hr1 (by simpa using h2)

/-- C9: tag-extraction correctness of the corpus scanner.  For a rule
document containing exactly one substring matching the tag pattern
(`matchCount content = 1`, the match being `t`), scanning that single
document yields an index holding exactly the tag `t` mapped to that file;
for a document with zero matches, no entry is produced, and inserting such
a document anywhere in a corpus leaves the index unchanged. -/
theorem c9_tag_extraction (content : List Char) (p : String) :
    (∀ t i, matchCount content = 1 → matchTagAt (content.drop i) = some t →
      buildSources [⟨p, content⟩] = [(String.mk t, p)])
    ∧ (matchCount content = 0 → buildSources [⟨p, content⟩] = [])
    ∧ (∀ pre post, matchCount content = 0 →
        buildSources (pre ++ ⟨p, content⟩ :: post) = buildSources (pre ++ post)) := by
  refine ⟨?_, ?_, ?_⟩
  · intro t i h1 h2
    have hf := firstTagMatch_of_count_one content i t h1 h2
    simp [buildSources, scanStep, tagOf, hf, jsInsert]
  · intro h0
    have hf := firstTagMatch_of_count_zero content h0
    simp [buildSources, scanStep, tagOf, hf]
  · intro pre post h0
    have hf := firstTagMatch_of_count_zero content h0
    have hstep : ∀ acc : List (String × String), scanStep acc ⟨p, content⟩ = acc := by
      intro acc
      simp [scanStep, tagOf, hf]
    simp [buildSources, List.foldl_append, hstep]

theorem c9_tag_extraction_witness :
    matchCount ("# [GOV-HEADER-001] governance".toList) = 1
    ∧ buildSources [⟨"rules/gov/gov-header-001.md", "# [GOV-HEADER-001] governance".toList⟩] =
        [("[GOV-HEADER-001]", "rules/gov/gov-header-001.md")] := by
  refine ⟨by decide, ?_⟩
  have h := (c9_tag_extraction ("# [GOV-HEADER-001] governance".toList)
    "rules/gov/gov-header-001.md").1 ("[GOV-HEADER-001]".toList) 2 (by decide) (by decide)
  simpa using h

theorem keys_jsInsert {α : Type} (k : String) (v : α) (l : List (String × α)) :
    (jsInsert k v l).map Prod.fst =
      if k ∈ l.map Prod.fst then l.map Prod.fst else l.map Prod.fst ++ [k] := by
  induction l with
  | nil => simp [jsInsert]
  | cons e rest ih =>
    obtain ⟨a, b⟩ := e
    by_cases h : a = k
    · subst h
      simp [jsInsert]
    · have hka : ¬(k = a) := fun hh => h hh.symm
      by_cases hk : k ∈ rest.map Prod.fst
      · simp [jsInsert, h, ih, hk, hka]
      · simp [jsInsert, h, ih, hk, hka]

theorem nodupKeys_jsInsert {α : Type} (k : String) (v : α) (l : List (String × α))
    (h : (l.map Prod.fst).Nodup) : ((jsInsert k v l).map Prod.fst).Nodup := by
  rw [keys_jsInsert]
  by_cases hk : k ∈ l.map Prod.fst
  · simpa [hk] using h
  · rw [if_neg hk]
    simp [List.nodup_append, h, hk]

theorem nodupKeys_buildSources (files : List ScanFile) :
    ((buildSources files).map Prod.fst).Nodup := by
  suffices h : ∀ acc : List (String × String), (acc.map Prod.fst).Nodup →
      ((files.foldl scanStep acc).map Prod.fst).Nodup by
    exact h [] (by simp)
  induction files with
  | nil =>
    intro acc hacc
    simpa using hacc
  | cons f rest ih =>
    intro acc hacc
    rw [List.foldl_cons]
    refine ih (scanStep acc f) ?_
    cases ht : tagOf f with
    | some t =>
      rw [scanStep, ht]
      exact nodupKeys_jsInsert t f.path acc hacc
    | none =>
      rw [scanStep, ht]
      exact hacc

theorem jsLookup_of_mem_nodup {α : Type} {l : List (String × α)} {k : String} {v : α}
    (h : (k, v) ∈ l) (hn : (l.map Prod.fst).Nodup) : jsLookup l k = some v := by
  induction l with
  | nil => simp at h
  | cons e rest ih =>
    obtain ⟨a, b⟩ := e
    rcases List.mem_cons.mp h with heq | hmem
    · obtain ⟨rfl, rfl⟩ := Prod.mk.injEq .. ▸ heq
      simp [jsLookup]
    · have ha : ¬(a = k) := by
        intro hak
        subst hak
        have : a ∈ rest.map Prod.fst :=
          List.mem_map.mpr ⟨(a, v), hmem, rfl⟩
        exact (List.nodup_cons.mp (by simpa using hn)).1 this
      rw [jsLookup, if_neg ha]
      exact ih hmem (List.nodup_cons.mp (by simpa using hn)).2

theorem mem_values_iff_lookup {α : Type} (l : List (String × α))
    (hn : (l.map Prod.fst).Nodup) (p : α) :
    p ∈ l.map Prod.snd ↔ ∃ k, jsLookup l k = some p := by
  constructor
  · intro hp
    obtain ⟨e, he, hep⟩ := List.mem_map.mp hp
    obtain ⟨k, v⟩ := e
    cases hep
    exact ⟨k, jsLookup_of_mem_nodup he hn⟩
  · rintro ⟨k, hk⟩
    exact List.mem_map.mpr ⟨(k, p), jsLookup_mem hk, rfl⟩

theorem buildSources_lookup (files : List ScanFile) (t : String) :
    jsLookup (buildSources files) t =
      (files.reverse.find? (fun f => tagOf f == some t)).map ScanFile.path := by
  suffices h : ∀ acc : List (String × String),
      jsLookup (files.foldl scanStep acc) t =
        match files.reverse.find? (fun f => tagOf f == some t) with
        | some g => some g.path
        | none => jsLookup acc t by
    rw [buildSources, h []]
    cases files.reverse.find? (fun f => tagOf f == some t) <;> simp [jsLookup]
  induction files with
  | nil =>
    intro acc
    simp
  | cons f rest ih =>
    intro acc
    rw [List.foldl_cons, ih (scanStep acc f), List.reverse_cons, List.find?_append]
    cases hr : rest.reverse.find? (fun f => tagOf f == some t) with
    | some g => simp
    | none =>
      cases ht : tagOf f with
      | some w =>
        by_cases hw : w = t
        · subst hw
          simp [Option.orElse, List.find?, scanStep, ht, jsLookup_jsInsert_self]
        · have hbe : (w == t) = false := by simp [hw]
          simp [Option.orElse, List.find?, scanStep, ht, hbe,
            jsLookup_jsInsert_ne _ _ (fun hh => hw hh.symm)]
      | none =>
        simp [Option.orElse, List.find?, scanStep, ht]

/-- C10: last write wins in the tag index.  The index entry for a tag `t`
is the path of the LAST scanned file whose first tag is `t` (the first
match over the reversed scan order), and the index values are exactly the
paths reachable through some tag entry — so a file overwritten by a later
duplicate tag is absent from the index and from every provenance list
derived from it. -/
theorem c10_last_write_wins (files : List ScanFile) (t p : String) :
    jsLookup (buildSources files) t =
      (files.reverse.find? (fun f => tagOf f == some t)).map ScanFile.path
    ∧ (p ∈ (buildSources files).map Prod.snd ↔
        ∃ q, jsLookup (buildSources files) q = some p) :=
  ⟨buildSources_lookup files t,
   mem_values_iff_lookup (buildSources files) (nodupKeys_buildSources files) p⟩

theorem c1_amended_witness : auditExit c1Artifact 95 false [] = 1 := by
  have hp : (analyzeTraceability c1Artifact).traceabilityPercent = 80 := by
    norm_num [analyzeTraceability, c1Artifact]
  exact ((c1_amended c1Artifact 95 false []).2.1).mpr (Or.inl (by rw [hp]; norm_num))
